import Mathlib

/-!
Verification of the grid / coordinate utility library (`utils.py`) of the
repository.  Python lists of strings are modelled as `List (List Char)`
(a row string is modelled by its list of characters), Python `int` as `Int`,
raising code as `Except String` (the carried string names the Python
exception), and `None`-returning code as `Option`.  Python's `%` on integers
is `Int.fmod` (sign follows the divisor) and `//` is `Int.fdiv` (floor
division), which match Python's semantics exactly.
-/

deriving instance DecidableEq for Except

namespace AoC

/-- Resolution of a Python sequence index `l[i]` where `n` is the length of
the sequence: a negative index is first shifted by `n`, and the shifted index
must land in `[0, n)`; `none` models an `IndexError`. -/
def pyIdx (n : Nat) (i : Int) : Option Nat :=
  let j := if i < 0 then i + (n : Int) else i
  if 0 ≤ j ∧ j < (n : Int) then some j.toNat else none

/-- Python indexing `l[i]` on a list, with `Except.error` modelling the
`IndexError` that Python raises for an unresolvable index. -/
def listGetExc {α : Type} (l : List α) (i : Int) : Except String α :=
  match pyIdx l.length i with
  | some k =>
    match l[k]? with
    | some a => Except.ok a
    | none => Except.error "IndexError"
  | none => Except.error "IndexError"

/-- Model of the Python type alias `Grid = List[str]`: each row string is
modelled by its list of characters. -/
abbrev Grid : Type := List (List Char)

/-- Translation of `grid_rows` in `src/utils.py`: `len(grid)`. -/
def grid_rows (g : Grid) : Nat := g.length

/-- Translation of `grid_cols` in `src/utils.py`:
`len(grid[0]) if grid else 0`. -/
def grid_cols (g : Grid) : Nat :=
  match g with
  | [] => 0
  | row :: _ => row.length

/-- Translation of `grid_is_inbound` in `src/utils.py`, which checks
`0 <= r <= len(grid) - 1 and 0 <= c <= len(grid[0]) - 1` after an early
`False` for the empty grid. -/
def grid_is_inbound (g : Grid) (rc : Int × Int) : Bool :=
  if g.isEmpty then false
  else
    decide (0 ≤ rc.1 ∧ rc.1 ≤ (g.length : Int) - 1 ∧
      0 ≤ rc.2 ∧ rc.2 ≤ (grid_cols g : Int) - 1)

/-- Translation of `grid_get` in `src/utils.py`: `return grid[r][c]`, an
expression that raises `IndexError` when either index fails to resolve. -/
def grid_get (g : Grid) (r c : Int) : Except String Char :=
  match listGetExc g r with
  | Except.ok row => listGetExc row c
  | Except.error e => Except.error e

/-- Translation of `grid_get_or_none` in `src/utils.py`: `grid[r][c]` inside
`try`, with `except IndexError: return None` modelled by `toOption`. -/
def grid_get_or_none (g : Grid) (rc : Int × Int) : Option Char :=
  (grid_get g rc.1 rc.2).toOption

/-- Translation of `grid_set` in `src/utils.py`:
`row_list = list(grid[r]); row_list[c] = v; grid[r] = "".join(row_list)`.
The cell value `v` is kept as a Python string (a `List Char`), exactly as in
the source, where no single-character check is enforced. -/
def grid_set (g : Grid) (r c : Int) (v : List Char) : Except String Grid :=
  match pyIdx g.length r with
  | none => Except.error "IndexError"
  | some ri =>
    match g[ri]? with
    | none => Except.error "IndexError"
    | some row =>
      let rowList := row.map (fun ch => [ch])
      match pyIdx rowList.length c with
      | none => Except.error "IndexError"
      | some ci => Except.ok (g.set ri ((rowList.set ci v).flatten))

/-- Translation of `grid_set_rc` in `src/utils.py`. -/
def grid_set_rc (g : Grid) (rc : Int × Int) (v : List Char) : Except String Grid :=
  grid_set g rc.1 rc.2 v

/-- Translation of `grid_swap` in `src/utils.py`: both cells are probed with
`grid_get_or_none`; only when both probes produce a value are the two
`grid_set_rc` mutations performed. -/
def grid_swap (g : Grid) (x y : Int × Int) : Except String Grid :=
  match grid_get_or_none g x, grid_get_or_none g y with
  | some xv, some yv =>
    match grid_set_rc g x [yv] with
    | Except.ok g1 => grid_set_rc g1 y [xv]
    | Except.error e => Except.error e
  | _, _ => Except.ok g

/-- Translation of `grid_sequence` in `src/utils.py`: the generator
`for r in range(grid_rows(grid)): for c in range(grid_cols(grid)): yield (r, c)`
modelled as the list of yielded pairs. -/
def grid_sequence (g : Grid) : List (Nat × Nat) :=
  (List.range (grid_rows g)).flatMap
    (fun r => (List.range (grid_cols g)).map (fun c => (r, c)))

/-- Helper for stating theorems: the cell of a grid at already-resolved
(non-negative) coordinates, with junk defaults that are never reached at
valid coordinates. -/
def cellAt (g : Grid) (q : Nat × Nat) : Char := (g.getD q.1 []).getD q.2 ' '

/-- Helper for stating theorems: resolution of both components of a
coordinate pair by Python index resolution, mirroring the evaluation order of
`grid[r][c]`. -/
def pyResolve2 (g : Grid) (rc : Int × Int) : Option (Nat × Nat) :=
  match pyIdx g.length rc.1 with
  | none => none
  | some ri =>
    match g[ri]? with
    | none => none
    | some row =>
      match pyIdx row.length rc.2 with
      | none => none
      | some ci => some (ri, ci)

/-- Property assumed throughout the spec (section 3): all rows of the grid
have the length of the first row. -/
def Rectangular (g : Grid) : Prop := ∀ row ∈ g, row.length = grid_cols g

instance (g : Grid) : Decidable (Rectangular g) := by
  unfold Rectangular
  exact List.decidableBAll _ g

/-- Concrete grid used by witnesses and counterexamples, the spec's
end-to-end example grid `["ab", "cd"]`. -/
def demoGrid : Grid := [['a', 'b'], ['c', 'd']]

/-- Translation of the `Dir` enum in `src/utils.py`. -/
inductive Dir : Type
  | UP
  | DOWN
  | LEFT
  | RIGHT
deriving DecidableEq

/-- Translation of `Dir.rotate` in `src/utils.py` (clockwise quarter turn). -/
def Dir.rotate : Dir → Dir
  | Dir.UP => Dir.RIGHT
  | Dir.DOWN => Dir.LEFT
  | Dir.LEFT => Dir.UP
  | Dir.RIGHT => Dir.DOWN

/-- Translation of `Dir.clockwise` in `src/utils.py`, an alias of `rotate`. -/
def Dir.clockwise (d : Dir) : Dir := d.rotate

/-- Translation of `Dir.counter_clockwise` in `src/utils.py`. -/
def Dir.counter_clockwise : Dir → Dir
  | Dir.UP => Dir.LEFT
  | Dir.DOWN => Dir.RIGHT
  | Dir.LEFT => Dir.DOWN
  | Dir.RIGHT => Dir.UP

/-- Translation of `cap` in `src/utils.py`:
`r = value % cap_value; return cap_value if r == 0 else r`, with Python's `%`
modelled by `Int.fmod`. -/
def cap (value cap_value : Int) : Int :=
  let r := value.fmod cap_value
  if r = 0 then cap_value else r

/-- Bound used for the termination of the Euclidean loop: the floor-mod
remainder is strictly smaller than the divisor in absolute value. -/
lemma natAbs_fmod_lt (a b : Int) (hb : b ≠ 0) : (a.fmod b).natAbs < b.natAbs := by
  match a, b with
  | Int.ofNat 0, b =>
    rw [show ((Int.ofNat 0) : Int) = 0 from rfl, Int.zero_fmod]
    simpa using Int.natAbs_pos.mpr hb
  | Int.ofNat (Nat.succ m), Int.ofNat n =>
    have hn : n ≠ 0 := by simpa using hb
    have : Int.fmod (Int.ofNat (Nat.succ m)) (Int.ofNat n) = Int.ofNat (Nat.succ m % n) := rfl
    rw [this]
    simpa using Nat.mod_lt _ (Nat.pos_of_ne_zero hn)
  | Int.ofNat (Nat.succ m), Int.negSucc n =>
    have : Int.fmod (Int.ofNat (Nat.succ m)) (Int.negSucc n) =
        Int.subNatNat (m % Nat.succ n) n := rfl
    rw [this, Int.subNatNat_eq_coe]
    have hm : m % Nat.succ n < Nat.succ n := Nat.mod_lt _ (Nat.succ_pos n)
    have hnat : (Int.negSucc n).natAbs = n + 1 := rfl
    rw [hnat]
    omega
  | Int.negSucc m, Int.ofNat n =>
    have hn : n ≠ 0 := by simpa using hb
    have : Int.fmod (Int.negSucc m) (Int.ofNat n) =
        Int.subNatNat n (Nat.succ (m % n)) := rfl
    rw [this, Int.subNatNat_eq_coe]
    have hm : m % n < n := Nat.mod_lt _ (Nat.pos_of_ne_zero hn)
    have hnat : (Int.ofNat n).natAbs = n := rfl
    rw [hnat]
    omega
  | Int.negSucc m, Int.negSucc n =>
    have : Int.fmod (Int.negSucc m) (Int.negSucc n) =
        -Int.ofNat (Nat.succ m % Nat.succ n) := rfl
    rw [this]
    have hm : Nat.succ m % Nat.succ n < Nat.succ n := Nat.mod_lt _ (Nat.succ_pos n)
    have hnat : (Int.negSucc n).natAbs = n + 1 := rfl
    rw [hnat]
    simpa using hm

/-- Translation of `gcd` in `src/utils.py`: the loop
`while b != 0: a, b = b, a % b` followed by `return abs(a)`, written as the
equivalent recursion on the pair of loop variables. -/
def gcd (a b : Int) : Int :=
  if h : b = 0 then (a.natAbs : Int)
  else gcd b (a.fmod b)
termination_by b.natAbs
decreasing_by exact natAbs_fmod_lt a b h

/-- Translation of `lcm` in `src/utils.py`: `abs(a * b) // gcd(a, b)`, with
Python's `//` modelled by `Int.fdiv`.  When both arguments are zero Python
raises `ZeroDivisionError`; the total Lean model returns `0` there, a case
the spec leaves undefined and the claims exclude. -/
def lcm (a b : Int) : Int := ((a * b).natAbs : Int).fdiv (gcd a b)

/-- Value of one hexadecimal digit character, ASCII range. -/
def hexDigitVal (c : Char) : Option Nat :=
  if '0' ≤ c ∧ c ≤ '9' then some (c.toNat - 48)
  else if 'a' ≤ c ∧ c ≤ 'f' then some (c.toNat - 87)
  else if 'A' ≤ c ∧ c ≤ 'F' then some (c.toNat - 55)
  else none

/-- ASCII characters stripped by Python's `int` around a numeric literal. -/
def isPyWs (c : Char) : Bool :=
  c == ' ' || c == '\t' || c == '\n' || c == '\r' ||
    c.toNat == 11 || c.toNat == 12 ||
    (28 ≤ c.toNat && c.toNat ≤ 31)

/-- Leading and trailing whitespace removal, as Python's `int` performs. -/
def stripWs (s : List Char) : List Char :=
  ((s.dropWhile (fun c => isPyWs c)).reverse.dropWhile (fun c => isPyWs c)).reverse

/-- Run of hexadecimal digits possibly separated by single underscores, with
the accumulated value so far; underscores may not be doubled or trailing. -/
def parseHexRun (acc : Nat) : List Char → Option Nat
  | [] => some acc
  | ['_'] => none
  | '_' :: c :: rest =>
    match hexDigitVal c with
    | some d => parseHexRun (16 * acc + d) rest
    | none => none
  | c :: rest =>
    match hexDigitVal c with
    | some d => parseHexRun (16 * acc + d) rest
    | none => none

/-- Nonempty digit run that must begin with a digit, not an underscore. -/
def parseHexDigits : List Char → Option Nat
  | [] => none
  | c :: rest =>
    match hexDigitVal c with
    | some d => parseHexRun d rest
    | none => none

/-- Digit run following a `0x` prefix, where Python additionally allows one
underscore directly after the prefix. -/
def parseAfterPrefix : List Char → Option Nat
  | '_' :: rest => parseHexDigits rest
  | l => parseHexDigits l

/-- Model of Python's `int(s, 16)` for strings of ASCII characters: optional
surrounding whitespace, an optional sign, an optional `0x`/`0X` prefix, then
hexadecimal digits with single-underscore separators.  Python additionally
accepts non-ASCII Unicode digit characters, which this ASCII model leaves out
of scope; `none` models the `ValueError` that Python raises. -/
def pyIntBase16 (s : List Char) : Option Int :=
  match stripWs s with
  | [] => none
  | c :: rest =>
    let sign : Int := if c = '-' then -1 else 1
    let body : List Char := if c = '-' ∨ c = '+' then rest else c :: rest
    let mag : Option Nat :=
      match body with
      | '0' :: x :: rest2 =>
        if x = 'x' ∨ x = 'X' then parseAfterPrefix rest2 else parseHexDigits body
      | _ => parseHexDigits body
    mag.map (fun m => sign * (m : Int))

/-- Binary digits of a natural number, most significant first, computed with
a structural fuel that is always sufficient. -/
def natToBinCore : Nat → Nat → List Char → List Char
  | 0, _, acc => acc
  | fuel + 1, n, acc =>
    if n = 0 then acc
    else natToBinCore fuel (n / 2) ((if n % 2 = 1 then '1' else '0') :: acc)

/-- Binary digit list of a natural number, with `0` rendered as `"0"`,
matching the digits of Python's `bin`. -/
def natToBin (n : Nat) : List Char :=
  if n = 0 then ['0'] else natToBinCore (n + 1) n []

/-- Model of Python's `bin`: `0b` prefix, with a leading minus sign for
negative numbers. -/
def pyBin (n : Int) : List Char :=
  if n < 0 then '-' :: '0' :: 'b' :: natToBin n.natAbs
  else '0' :: 'b' :: natToBin n.natAbs

/-- Model of Python's `str.zfill`: left padding with `'0'` up to the given
width, inserted after a leading sign character when one is present. -/
def pyZfill (w : Nat) (s : List Char) : List Char :=
  if w ≤ s.length then s
  else
    match s with
    | [] => List.replicate w '0'
    | c :: rest =>
      if c = '+' ∨ c = '-' then c :: (List.replicate (w - s.length) '0' ++ rest)
      else List.replicate (w - s.length) '0' ++ s

/-- Translation of `hex_to_binary` in `src/utils.py`:
`bin(int(ch, 16))[2:].zfill(4)`. -/
def hex_to_binary (s : List Char) : Except String (List Char) :=
  match pyIntBase16 s with
  | none => Except.error "ValueError"
  | some n => Except.ok (pyZfill 4 ((pyBin n).drop 2))

/-- Translation of `permute` in `src/utils.py`, with the mutable state
`(curr, result)` threaded explicitly: the base case appends a copy of `curr`
to `result`, and the loop body is append / recurse / pop.  The structural
fuel bounds the recursion depth; it is consumed only at recursive calls, and
`permute` below supplies enough fuel for every call with
`curr.length ≤ max_length`.  (When `curr` is already longer than
`max_length`, the Python function never terminates.) -/
def permuteAux {T : Type} (fuel : Nat) (curr : List T) (max_length : Nat)
    (result : List (List T)) (ops : List T) : List T × List (List T) :=
  match fuel with
  | 0 => (curr, result)
  | fuel2 + 1 =>
    if curr.length = max_length then (curr, result ++ [curr])
    else
      ops.foldl
        (fun st op =>
          let nx := permuteAux fuel2 (st.1 ++ [op]) max_length st.2 ops
          (nx.1.dropLast, nx.2))
        (curr, result)

/-- Translation of `permute` in `src/utils.py`.  The iteration order of the
Python `set` argument `ops` is modelled by the order of a list. -/
def permute {T : Type} (curr : List T) (max_length : Nat)
    (result : List (List T)) (ops : List T) : List T × List (List T) :=
  permuteAux (max_length + 1 - curr.length) curr max_length result ops

/-- Specification-side enumeration of all sequences of a given length over an
alphabet list, in the alphabet's order: used to describe what `permute`
produces. -/
def seqs {T : Type} : Nat → List T → List (List T)
  | 0, _ => [[]]
  | n + 1, ops => ops.flatMap (fun op => (seqs n ops).map (fun s => op :: s))

/-! Lemmas about Python index resolution. -/

lemma pyIdx_eq_none_iff (n : Nat) (i : Int) :
    pyIdx n i = none ↔ (i < -(n : Int) ∨ (n : Int) ≤ i) := by
  simp only [pyIdx]
  split_ifs with h1 h2 <;> simp <;> omega

lemma pyIdx_nonneg (n : Nat) (i : Int) (h0 : 0 ≤ i) (h1 : i < (n : Int)) :
    pyIdx n i = some i.toNat := by
  have hni : ¬ i < 0 := by omega
  simp only [pyIdx, if_neg hni]
  rw [if_pos ⟨h0, h1⟩]

lemma pyIdx_neg_inrange (n : Nat) (i : Int) (h0 : i < 0) (h1 : -(n : Int) ≤ i) :
    pyIdx n i = some (i + n).toNat := by
  simp only [pyIdx, if_pos h0]
  rw [if_pos ⟨by omega, by omega⟩]

lemma pyIdx_some_lt (n : Nat) (i : Int) (k : Nat) (h : pyIdx n i = some k) : k < n := by
  simp only [pyIdx] at h
  split_ifs at h with h1 h2 <;> simp at h <;> omega

/-- C5: for every integer value and every integer n > 0, `cap value n` lies in
the closed range [1, n] (never 0), `cap n n = n` and `cap (n+1) n = 1`. -/
theorem cap_range_props (n : Int) (hn : 0 < n) :
    (∀ value : Int, 1 ≤ cap value n ∧ cap value n ≤ n) ∧
    cap n n = n ∧ cap (n + 1) n = 1 := by
  refine ⟨fun v => ?_, ?_, ?_⟩
  · have h0 : 0 ≤ v.fmod n := Int.fmod_nonneg' v hn
    have h1 : v.fmod n < n := Int.fmod_lt_of_pos v hn
    simp only [cap]
    split_ifs with h <;> omega
  · simp [cap, Int.fmod_self]
  · simp only [cap]
    rw [Int.fmod_eq_emod _ (by omega)]
    have h2 : (n + 1) % n = 1 % n := by
      conv_lhs => rw [show n + 1 = 1 + n * 1 by ring]
      rw [Int.add_mul_emod_self_left]
    rw [h2]
    by_cases h1 : n = 1
    · subst h1; norm_num
    · have h3 : (1 : Int) % n = 1 := Int.emod_eq_of_lt (by omega) (by omega)
      rw [h3]; norm_num

/-- Witness for C5 at n = 5 and value = 3. -/
theorem cap_range_props_witness :
    (0 : Int) < 5 ∧ (1 ≤ cap 3 5 ∧ cap 3 5 ≤ 5) ∧ cap 5 5 = 5 ∧ cap 6 5 = 1 :=
  ⟨by decide, (cap_range_props 5 (by decide)).1 3,
    (cap_range_props 5 (by decide)).2.1, (cap_range_props 5 (by decide)).2.2⟩

/-- C8: rotate applied four times is the identity on every direction, rotate
and counter_clockwise are mutual inverses, and rotate follows the clockwise
cycle UP to RIGHT to DOWN to LEFT to UP. -/
theorem dir_rotate_props :
    (∀ d : Dir, d.rotate.rotate.rotate.rotate = d ∧
      d.rotate.counter_clockwise = d ∧ d.counter_clockwise.rotate = d) ∧
    Dir.UP.rotate = Dir.RIGHT ∧ Dir.RIGHT.rotate = Dir.DOWN ∧
    Dir.DOWN.rotate = Dir.LEFT ∧ Dir.LEFT.rotate = Dir.UP := by
  refine ⟨fun d => ?_, rfl, rfl, rfl, rfl⟩
  cases d <;> exact ⟨rfl, rfl, rfl⟩

/-! Characterisation of the raising and optional grid accessors in terms of
Python index resolution. -/

lemma grid_get_eq_resolve (g : Grid) (r c : Int) :
    grid_get g r c = match pyResolve2 g (r, c) with
      | some q => Except.ok (cellAt g q)
      | none => Except.error "IndexError" := by
  simp only [grid_get, listGetExc, pyResolve2]
  cases hri : pyIdx g.length r with
  | none => simp [hri]
  | some ri =>
    have hlt := pyIdx_some_lt _ _ _ hri
    simp only [hri, List.getElem?_eq_getElem hlt]
    cases hci : pyIdx (g[ri]).length c with
    | none => simp [hci]
    | some ci =>
      have hclt := pyIdx_some_lt _ _ _ hci
      simp [hci, List.getElem?_eq_getElem hclt, cellAt,
        List.getD_eq_getElem?_getD, hlt, hclt]

lemma grid_get_or_none_eq_resolve (g : Grid) (rc : Int × Int) :
    grid_get_or_none g rc = (pyResolve2 g rc).map (fun q => cellAt g q) := by
  rcases rc with ⟨r, c⟩
  simp only [grid_get_or_none, grid_get_eq_resolve]
  cases pyResolve2 g (r, c) <;> rfl

lemma pyResolve2_inbounds (g : Grid) (hg : Rectangular g) (r c : Int)
    (hr0 : 0 ≤ r) (hr1 : r < (grid_rows g : Int))
    (hc0 : 0 ≤ c) (hc1 : c < (grid_cols g : Int)) :
    pyResolve2 g (r, c) = some (r.toNat, c.toNat) := by
  have hri : pyIdx g.length r = some r.toNat := pyIdx_nonneg _ _ hr0 hr1
  have hlt := pyIdx_some_lt _ _ _ hri
  simp only [pyResolve2, hri, List.getElem?_eq_getElem hlt]
  have hrow : (g[r.toNat]).length = grid_cols g := hg _ (List.getElem_mem hlt)
  rw [pyIdx_nonneg _ _ hc0 (by rw [hrow]; exact hc1)]

lemma pyResolve2_none_iff (g : Grid) (hg : Rectangular g) (r c : Int) :
    pyResolve2 g (r, c) = none ↔
      (r < -(grid_rows g : Int) ∨ (grid_rows g : Int) ≤ r ∨
       c < -(grid_cols g : Int) ∨ (grid_cols g : Int) ≤ c) := by
  simp only [pyResolve2]
  cases hri : pyIdx g.length r with
  | none =>
    have h1 := (pyIdx_eq_none_iff g.length r).mp hri
    simp only [grid_rows]
    simp
    omega
  | some ri =>
    have hlt := pyIdx_some_lt _ _ _ hri
    have h1 : ¬ (r < -(g.length : Int) ∨ (g.length : Int) ≤ r) := by
      rw [← pyIdx_eq_none_iff, hri]; simp
    simp only [hri, List.getElem?_eq_getElem hlt]
    have hrow : (g[ri]).length = grid_cols g := hg _ (List.getElem_mem hlt)
    cases hci : pyIdx (g[ri]).length c with
    | none =>
      have h2 := (pyIdx_eq_none_iff _ c).mp hci
      rw [hrow] at h2
      simp only [grid_rows]
      simp
      omega
    | some ci =>
      have h2 : ¬ (c < -((g[ri]).length : Int) ∨ ((g[ri]).length : Int) ≤ c) := by
        rw [← pyIdx_eq_none_iff, hci]; simp
      rw [hrow] at h2
      simp only [grid_rows]
      simp
      omega

/-- C1 (amended): for a rectangular grid, an in-bounds coordinate makes
`grid_get_or_none` return the same cell value that `grid_get` returns, and
`grid_get_or_none` returns `none` exactly when the coordinate fails Python
index resolution, that is when r is outside [-rows, rows) or c is outside
[-cols, cols); a negative component inside that range wraps around and
yields a cell value instead of `none`. -/
theorem grid_get_or_none_spec (g : Grid) (hg : Rectangular g) (r c : Int) :
    (0 ≤ r → r < (grid_rows g : Int) → 0 ≤ c → c < (grid_cols g : Int) →
      grid_get_or_none g (r, c) = some (cellAt g (r.toNat, c.toNat)) ∧
      grid_get g r c = Except.ok (cellAt g (r.toNat, c.toNat))) ∧
    (grid_get_or_none g (r, c) = none ↔
      (r < -(grid_rows g : Int) ∨ (grid_rows g : Int) ≤ r ∨
       c < -(grid_cols g : Int) ∨ (grid_cols g : Int) ≤ c)) := by
  constructor
  · intro hr0 hr1 hc0 hc1
    have hres := pyResolve2_inbounds g hg r c hr0 hr1 hc0 hc1
    constructor
    · rw [grid_get_or_none_eq_resolve, hres]; rfl
    · rw [grid_get_eq_resolve, hres]
  · rw [grid_get_or_none_eq_resolve, ← pyResolve2_none_iff g hg r c]
    cases pyResolve2 g (r, c) <;> simp

/-- C1 counterexample: the coordinate (-1, 0) is out of bounds in the
claim's sense, yet `grid_get_or_none` returns the cell of the last row
instead of `none`, because Python accepts negative indices. -/
theorem grid_get_or_none_cex :
    ¬ (0 ≤ (-1 : Int)) ∧ grid_get_or_none demoGrid (-1, 0) = some 'c' :=
  ⟨by decide, by decide⟩

/-- Witness for C1 on the spec's example grid at the in-bounds coordinate
(0, 1). -/
theorem grid_get_or_none_spec_witness :
    grid_get_or_none demoGrid (0, 1) = some 'b' ∧
    grid_get demoGrid 0 1 = Except.ok 'b' :=
  (grid_get_or_none_spec demoGrid (by decide) 0 1).1
    (by decide) (by decide) (by decide) (by decide)

/-- C3 (amended): for a rectangular grid, `grid_get` raises `IndexError`
exactly when the coordinate fails Python index resolution, that is when r is
outside [-rows, rows) or c is outside [-cols, cols); for a coordinate that
is valid in the claim's sense it returns the cell value without error, but a
negative component inside the wraparound range also returns a cell value
rather than failing. -/
theorem grid_get_error_spec (g : Grid) (hg : Rectangular g) (r c : Int) :
    (grid_get g r c = Except.error "IndexError" ↔
      (r < -(grid_rows g : Int) ∨ (grid_rows g : Int) ≤ r ∨
       c < -(grid_cols g : Int) ∨ (grid_cols g : Int) ≤ c)) ∧
    (0 ≤ r → r < (grid_rows g : Int) → 0 ≤ c → c < (grid_cols g : Int) →
      grid_get g r c = Except.ok (cellAt g (r.toNat, c.toNat))) := by
  constructor
  · rw [grid_get_eq_resolve, ← pyResolve2_none_iff g hg r c]
    cases pyResolve2 g (r, c) <;> simp
  · intro hr0 hr1 hc0 hc1
    rw [grid_get_eq_resolve, pyResolve2_inbounds g hg r c hr0 hr1 hc0 hc1]

/-- C3 counterexample: the coordinate (-1, 0) is invalid in the claim's
sense, yet `grid_get` returns a value instead of failing, because Python
resolves the negative row index to the last row. -/
theorem grid_get_cex :
    ¬ (0 ≤ (-1 : Int)) ∧ grid_get demoGrid (-1) 0 = Except.ok 'c' :=
  ⟨by decide, by decide⟩

/-- Witness for C3 on the spec's example grid: (0, 2) raises and (0, 1)
returns the cell. -/
theorem grid_get_error_spec_witness :
    grid_get demoGrid 0 2 = Except.error "IndexError" ∧
    grid_get demoGrid 0 1 = Except.ok 'b' :=
  ⟨(grid_get_error_spec demoGrid (by decide) 0 2).1.mpr (by decide),
    (grid_get_error_spec demoGrid (by decide) 0 1).2
      (by decide) (by decide) (by decide) (by decide)⟩

/-! Row-major enumeration. -/

lemma rowMajor_closed_form (R C : Nat) :
    (List.range R).flatMap (fun r => (List.range C).map (fun c => (r, c))) =
    (List.range (R * C)).map (fun i => (i / C, i % C)) := by
  induction R with
  | zero => simp
  | succ R ih =>
    rw [List.range_succ, List.flatMap_append, ih,
      show (R + 1) * C = R * C + C by ring, List.range_add, List.map_append]
    congr 1
    simp only [List.flatMap_cons, List.flatMap_nil, List.append_nil, List.map_map]
    apply List.map_congr_left
    intro c hc
    have hcC : c < C := List.mem_range.mp hc
    have hC : 0 < C := by omega
    have h1 : (R * C + c) / C = R := by
      rw [Nat.add_comm, Nat.mul_comm, Nat.add_mul_div_left _ _ hC,
        Nat.div_eq_of_lt hcC, Nat.zero_add]
    have h2 : (R * C + c) % C = c := by
      rw [Nat.add_comm, Nat.mul_comm, Nat.add_mul_mod_self_left,
        Nat.mod_eq_of_lt hcC]
    simp [Function.comp, h1, h2]

/-- C7: `grid_sequence` yields exactly rows * cols coordinates, all distinct,
and the i-th yielded coordinate is (i / cols, i % cols), which is row-major
order: all of row 0 left to right, then row 1, and so on. -/
theorem grid_sequence_spec (g : Grid) :
    (grid_sequence g).length = grid_rows g * grid_cols g ∧
    (grid_sequence g).Nodup ∧
    (∀ i, i < grid_rows g * grid_cols g →
      (grid_sequence g)[i]? = some (i / grid_cols g, i % grid_cols g)) := by
  have hform : grid_sequence g =
      (List.range (grid_rows g * grid_cols g)).map
        (fun i => (i / grid_cols g, i % grid_cols g)) :=
    rowMajor_closed_form (grid_rows g) (grid_cols g)
  refine ⟨?_, ?_, ?_⟩
  · rw [hform]; simp
  · rw [hform]
    by_cases hC : grid_cols g = 0
    · simp [hC]
    · refine (List.nodup_range _).map ?_
      intro i j hij
      have h1 : i / grid_cols g = j / grid_cols g := congrArg Prod.fst hij
      have h2 : i % grid_cols g = j % grid_cols g := congrArg Prod.snd hij
      have h3 : i = grid_cols g * (i / grid_cols g) + i % grid_cols g :=
        (Nat.div_add_mod i (grid_cols g)).symm
      rw [h1, h2, Nat.div_add_mod] at h3
      exact h3
  · intro i hi
    rw [hform, List.getElem?_map, List.getElem?_range hi]
    rfl

/-- Witness for C7 on the spec's example grid: the third yielded coordinate
(index 2) is (1, 0), the start of the second row. -/
theorem grid_sequence_spec_witness :
    (grid_sequence demoGrid)[2]? = some (1, 0) :=
  (grid_sequence_spec demoGrid).2.2 2 (by decide)

/-! Euclidean algorithm lemmas. -/

lemma gcd_unfold (a b : Int) :
    AoC.gcd a b = if b = 0 then (a.natAbs : Int) else AoC.gcd b (a.fmod b) := by
  rw [AoC.gcd]
  by_cases hb : b = 0 <;> simp [hb]

lemma int_gcd_fmod_step (a b : Int) : Int.gcd b (a.fmod b) = Int.gcd a b := by
  have hq : a.fmod b = a - b * a.fdiv b := by
    have h := Int.fmod_add_fdiv a b
    linarith
  apply Nat.dvd_antisymm
  · have h1 : (↑(Int.gcd b (a.fmod b)) : Int) ∣ a := by
      have hb : (↑(Int.gcd b (a.fmod b)) : Int) ∣ b := Int.gcd_dvd_left
      have hm : (↑(Int.gcd b (a.fmod b)) : Int) ∣ a.fmod b := Int.gcd_dvd_right
      have hm2 : (↑(Int.gcd b (a.fmod b)) : Int) ∣ a - b * a.fdiv b := hq ▸ hm
      have hsum := dvd_add hm2 (Dvd.dvd.mul_right hb (a.fdiv b))
      simpa using hsum
    have h2 : (↑(Int.gcd b (a.fmod b)) : Int) ∣ b := Int.gcd_dvd_left
    exact Int.natCast_dvd_natCast.mp (Int.dvd_gcd h1 h2)
  · have h1 : (↑(Int.gcd a b) : Int) ∣ b := Int.gcd_dvd_right
    have h2 : (↑(Int.gcd a b) : Int) ∣ a.fmod b := by
      rw [hq]
      exact dvd_sub Int.gcd_dvd_left (Dvd.dvd.mul_right h1 _)
    exact Int.natCast_dvd_natCast.mp (Int.dvd_gcd h1 h2)

lemma gcd_eq_int_gcd (a b : Int) : AoC.gcd a b = (Int.gcd a b : Int) := by
  have H : ∀ n : Nat, ∀ a b : Int, b.natAbs ≤ n → AoC.gcd a b = (Int.gcd a b : Int) := by
    intro n
    induction n with
    | zero =>
      intro a b hb
      have hb0 : b = 0 := by omega
      rw [hb0, gcd_unfold, if_pos rfl, Int.gcd_zero_right]
    | succ n ih =>
      intro a b hb
      by_cases h0 : b = 0
      · rw [h0, gcd_unfold, if_pos rfl, Int.gcd_zero_right]
      · rw [gcd_unfold, if_neg h0,
          ih b (a.fmod b) (by have := natAbs_fmod_lt a b h0; omega)]
        rw [int_gcd_fmod_step]
  exact H b.natAbs a b le_rfl

/-- C9: the Euclidean `gcd` is symmetric, `gcd a 0` is the absolute value of
a (in particular non-negative), and for nonzero a and b the product of `lcm`
and `gcd` is the absolute value of a * b. -/
theorem gcd_lcm_props (a b : Int) :
    AoC.gcd a b = AoC.gcd b a ∧
    AoC.gcd a 0 = (a.natAbs : Int) ∧
    (a ≠ 0 → b ≠ 0 → AoC.lcm a b * AoC.gcd a b = ((a * b).natAbs : Int)) := by
  refine ⟨?_, ?_, ?_⟩
  · rw [gcd_eq_int_gcd, gcd_eq_int_gcd, Int.gcd_comm]
  · rw [gcd_unfold, if_pos rfl]
  · intro ha hb
    rw [AoC.lcm, gcd_eq_int_gcd]
    have hg0 : 0 < Int.gcd a b := Int.gcd_pos_of_ne_zero_left b ha
    have hdvd : (↑(Int.gcd a b) : Int) ∣ ((a * b).natAbs : Int) :=
      Int.dvd_natAbs.mpr (Dvd.dvd.mul_right Int.gcd_dvd_left b)
    rw [Int.fdiv_eq_ediv_of_dvd hdvd]
    exact Int.ediv_mul_cancel hdvd

/-- Witness for C9 at a = 6, b = 4. -/
theorem gcd_lcm_props_witness :
    AoC.gcd 6 4 = AoC.gcd 4 6 ∧ AoC.gcd 6 0 = 6 ∧
    AoC.lcm 6 4 * AoC.gcd 6 4 = 24 :=
  ⟨(gcd_lcm_props 6 4).1, (gcd_lcm_props 6 4).2.1,
    (gcd_lcm_props 6 4).2.2 (by decide) (by decide)⟩

/-! Single-character behaviour of the hex conversion. -/

/-- Property satisfied by a single-character input: a hexadecimal digit
yields the zero-padded, exactly 4 characters wide binary rendering of its
value, and any other single ASCII character raises `ValueError`. -/
def hexSingleProp (ch : Char) : Prop :=
  if (hexDigitVal ch).isSome then
    hex_to_binary [ch] = Except.ok (pyZfill 4 (natToBin ((hexDigitVal ch).getD 0))) ∧
    (pyZfill 4 (natToBin ((hexDigitVal ch).getD 0))).length = 4
  else hex_to_binary [ch] = Except.error "ValueError"

instance (ch : Char) : Decidable (hexSingleProp ch) := by
  unfold hexSingleProp
  infer_instance

/-- C4 (amended): for every single ASCII character, `hex_to_binary` returns
the 4-character zero-padded binary representation of the digit value when
the character is a hexadecimal digit, and fails with `ValueError` otherwise;
multi-character strings that parse as hexadecimal numbers do not fail and
may produce more than 4 characters. -/
theorem hex_to_binary_single (ch : Char) (hA : ch.toNat < 128) :
    hexSingleProp ch := by
  have key : ∀ n : Nat, n < 128 → hexSingleProp (Char.ofNat n) := by decide
  have h2 := key ch.toNat hA
  rwa [Char.ofNat_toNat] at h2

/-- C4 counterexample: the two-character string "10" is not a single
hexadecimal digit, yet `hex_to_binary` does not fail: it parses the string
as the number 16 and returns the five-character string "10000". -/
theorem hex_to_binary_cex :
    (['1', '0'] : List Char).length ≠ 1 ∧
    hex_to_binary ['1', '0'] = Except.ok ['1', '0', '0', '0', '0'] :=
  ⟨by decide, by decide⟩

/-- Witness for C4 at the hex digit 7 and at the non-digit 'g'. -/
theorem hex_to_binary_single_witness :
    ('7').toNat < 128 ∧ hexSingleProp '7' ∧ hexSingleProp 'g' :=
  ⟨by decide, hex_to_binary_single '7' (by decide),
    hex_to_binary_single 'g' (by decide)⟩

/-! List update lemmas used for the mutation frame properties. -/

lemma getD_set_ne {α : Type} (l : List α) (i j : Nat) (a d : α) (h : i ≠ j) :
    (l.set i a).getD j d = l.getD j d := by
  simp [List.getD_eq_getElem?_getD, List.getElem?_set_ne h]

lemma getD_set_self {α : Type} (l : List α) (i : Nat) (a d : α)
    (h : i < l.length) : (l.set i a).getD i d = a := by
  simp [List.getD_eq_getElem?_getD, List.getElem?_set_self h]

lemma flatten_map_singleton (l : List Char) :
    (l.map (fun ch => [ch])).flatten = l := by
  induction l with
  | nil => rfl
  | cons a l ih => simp [ih]

lemma flatten_set_singleton (row : List Char) (ci : Nat) (x : Char) :
    ((row.map (fun ch => [ch])).set ci [x]).flatten = row.set ci x := by
  induction row generalizing ci with
  | nil => rfl
  | cons a l ih =>
    cases ci with
    | zero => simp [flatten_map_singleton]
    | succ n => simp [List.set, ih]

/-- C10: on a rectangular grid, setting an in-bounds cell to a
single-character value succeeds, leaves every other row untouched, preserves
the length of the target row, changes no other cell of that row, and stores
the new character at the target cell.  (The accessors are pure functions of
the grid in this model, so their non-mutation is inherent.) -/
theorem grid_set_frame (g : Grid) (hg : Rectangular g) (r c : Int)
    (v : List Char) (hr0 : 0 ≤ r) (hr1 : r < (grid_rows g : Int))
    (hc0 : 0 ≤ c) (hc1 : c < (grid_cols g : Int)) (hv : v.length = 1) :
    ∃ g2, grid_set g r c v = Except.ok g2 ∧
      g2.length = g.length ∧
      (∀ i, i ≠ r.toNat → g2.getD i [] = g.getD i []) ∧
      (g2.getD r.toNat []).length = (g.getD r.toNat []).length ∧
      (∀ j, j ≠ c.toNat →
        (g2.getD r.toNat []).getD j ' ' = (g.getD r.toNat []).getD j ' ') ∧
      (g2.getD r.toNat []).getD c.toNat ' ' = v.getD 0 ' ' := by
  obtain ⟨x, rfl⟩ := List.length_eq_one.mp hv
  have hri : pyIdx g.length r = some r.toNat := pyIdx_nonneg _ _ hr0 hr1
  have hlt := pyIdx_some_lt _ _ _ hri
  have hrow : (g[r.toNat]).length = grid_cols g := hg _ (List.getElem_mem hlt)
  have hclt : c.toNat < (g[r.toNat]).length := by rw [hrow]; omega
  have hci : pyIdx ((g[r.toNat]).map (fun ch => [ch])).length c =
      some c.toNat := by
    rw [List.length_map]
    exact pyIdx_nonneg _ _ hc0 (by rw [hrow]; exact hc1)
  refine ⟨g.set r.toNat ((g[r.toNat]).set c.toNat x), ?_, ?_, ?_, ?_, ?_, ?_⟩
  · simp only [grid_set, hri, List.getElem?_eq_getElem hlt, hci,
      flatten_set_singleton]
  · simp
  · intro i hi
    exact getD_set_ne _ _ _ _ _ (fun hh => hi hh.symm)
  · have hgd : g.getD r.toNat [] = g[r.toNat] := by
      rw [List.getD_eq_getElem?_getD, List.getElem?_eq_getElem hlt]
      rfl
    rw [getD_set_self _ _ _ _ hlt, hgd]
    simp
  · intro j hj
    have hgd : g.getD r.toNat [] = g[r.toNat] := by
      rw [List.getD_eq_getElem?_getD, List.getElem?_eq_getElem hlt]
      rfl
    rw [getD_set_self _ _ _ _ hlt, hgd]
    exact getD_set_ne _ _ _ _ _ (fun hh => hj hh.symm)
  · rw [getD_set_self _ _ _ _ hlt, getD_set_self _ _ _ _ hclt]
    rfl

/-- Witness for C10 on the spec's example grid: writing 'z' at (0, 1). -/
theorem grid_set_frame_witness :
    ∃ g2, grid_set demoGrid 0 1 ['z'] = Except.ok g2 ∧
      g2.length = demoGrid.length ∧
      (∀ i, i ≠ (0 : Int).toNat → g2.getD i [] = demoGrid.getD i []) ∧
      (g2.getD (0 : Int).toNat []).length =
        (demoGrid.getD (0 : Int).toNat []).length ∧
      (∀ j, j ≠ (1 : Int).toNat →
        (g2.getD (0 : Int).toNat []).getD j ' ' =
          (demoGrid.getD (0 : Int).toNat []).getD j ' ') ∧
      (g2.getD (0 : Int).toNat []).getD (1 : Int).toNat ' ' =
        (['z'] : List Char).getD 0 ' ' :=
  grid_set_frame demoGrid (by decide) 0 1 ['z']
    (by decide) (by decide) (by decide) (by decide) (by decide)

/-! Swap machinery: a single resolved cell write and its frame properties. -/

/-- Helper for stating theorems: the grid after writing character x at the
already-resolved coordinate q, which is what one `grid_set` call performs. -/
def gridWrite (g : Grid) (q : Nat × Nat) (x : Char) : Grid :=
  g.set q.1 ((g.getD q.1 []).set q.2 x)

lemma resolve_bounds (g : Grid) (rc : Int × Int) (q : Nat × Nat)
    (h : pyResolve2 g rc = some q) :
    q.1 < g.length ∧ q.2 < (g.getD q.1 []).length := by
  rcases rc with ⟨r, c⟩
  simp only [pyResolve2] at h
  cases hri : pyIdx g.length r with
  | none => rw [hri] at h; simp at h
  | some ri =>
    rw [hri] at h
    have hlt := pyIdx_some_lt _ _ _ hri
    simp only [List.getElem?_eq_getElem hlt] at h
    cases hci : pyIdx (g[ri]).length c with
    | none => rw [hci] at h; simp at h
    | some ci =>
      rw [hci] at h
      simp at h
      subst h
      have hclt := pyIdx_some_lt _ _ _ hci
      have hgd : g.getD ri [] = g[ri] := by
        rw [List.getD_eq_getElem?_getD, List.getElem?_eq_getElem hlt]
        rfl
      exact ⟨hlt, by rw [hgd]; exact hclt⟩

lemma sameShape_write (g : Grid) (q : Nat × Nat) (x : Char) :
    (gridWrite g q x).length = g.length ∧
    ∀ i, ((gridWrite g q x).getD i []).length = (g.getD i []).length := by
  rcases q with ⟨q1, q2⟩
  constructor
  · simp [gridWrite]
  · intro i
    by_cases hiq : i = q1
    · subst hiq
      by_cases hlen : i < g.length
      · rw [gridWrite, getD_set_self _ _ _ _ hlen]
        simp
      · rw [gridWrite, List.set_eq_of_length_le (by omega)]
    · rw [gridWrite, getD_set_ne _ _ _ _ _ (fun hh => hiq hh.symm)]

lemma pyResolve2_shape_congr (g g2 : Grid) (hlen : g2.length = g.length)
    (hrows : ∀ i, (g2.getD i []).length = (g.getD i []).length)
    (rc : Int × Int) : pyResolve2 g2 rc = pyResolve2 g rc := by
  rcases rc with ⟨r, c⟩
  simp only [pyResolve2, hlen]
  cases hri : pyIdx g.length r with
  | none => rfl
  | some ri =>
    have hlt := pyIdx_some_lt _ _ _ hri
    have hlt2 : ri < g2.length := by omega
    simp only [List.getElem?_eq_getElem hlt, List.getElem?_eq_getElem hlt2]
    have hlens : (g2[ri]).length = (g[ri]).length := by
      have h1 := hrows ri
      rw [List.getD_eq_getElem?_getD, List.getD_eq_getElem?_getD,
        List.getElem?_eq_getElem hlt, List.getElem?_eq_getElem hlt2] at h1
      simpa using h1
    rw [hlens]

lemma cellAt_write_self (g : Grid) (q : Nat × Nat) (x : Char)
    (h1 : q.1 < g.length) (h2 : q.2 < (g.getD q.1 []).length) :
    cellAt (gridWrite g q x) q = x := by
  rcases q with ⟨q1, q2⟩
  simp only [cellAt, gridWrite] at h2 ⊢
  rw [getD_set_self _ _ _ _ h1, getD_set_self _ _ _ _ h2]

lemma cellAt_write_ne (g : Grid) (q p : Nat × Nat) (x : Char) (h : p ≠ q) :
    cellAt (gridWrite g q x) p = cellAt g p := by
  rcases q with ⟨q1, q2⟩
  rcases p with ⟨p1, p2⟩
  simp only [cellAt, gridWrite]
  by_cases h1 : p1 = q1
  · subst h1
    have h2 : p2 ≠ q2 := fun hh => h (by rw [hh])
    by_cases hlen : p1 < g.length
    · rw [getD_set_self _ _ _ _ hlen,
        getD_set_ne _ _ _ _ _ (fun hh => h2 hh.symm)]
    · rw [List.set_eq_of_length_le (by omega)]
  · rw [getD_set_ne _ _ _ _ _ (fun hh => h1 hh.symm)]

lemma grid_set_eq_write (g : Grid) (r c : Int) (x : Char) (q : Nat × Nat)
    (h : pyResolve2 g (r, c) = some q) :
    grid_set g r c [x] = Except.ok (gridWrite g q x) := by
  simp only [pyResolve2] at h
  cases hri : pyIdx g.length r with
  | none => rw [hri] at h; simp at h
  | some ri =>
    rw [hri] at h
    have hlt := pyIdx_some_lt _ _ _ hri
    simp only [List.getElem?_eq_getElem hlt] at h
    cases hci : pyIdx (g[ri]).length c with
    | none => rw [hci] at h; simp at h
    | some ci =>
      rw [hci] at h
      simp at h
      subst h
      have hgd : g.getD ri [] = g[ri] := by
        rw [List.getD_eq_getElem?_getD, List.getElem?_eq_getElem hlt]
        rfl
      have hci2 : pyIdx ((g[ri]).map (fun ch => [ch])).length c = some ci := by
        rw [List.length_map]
        exact hci
      simp only [grid_set, hri, List.getElem?_eq_getElem hlt, hci2,
        flatten_set_singleton, gridWrite, hgd]

/-- C2 (amended): `grid_swap` leaves the grid unchanged (returning it intact,
with no error) whenever either probe with `grid_get_or_none` yields `none`;
when both probes yield values, which happens exactly when both coordinates
resolve under Python indexing (including in-range negative indices, which
the claim counts as out of bounds), it exchanges the two cell values and
changes no other cell. -/
theorem grid_swap_spec (g : Grid) (x y : Int × Int) :
    ((grid_get_or_none g x = none ∨ grid_get_or_none g y = none) →
      grid_swap g x y = Except.ok g) ∧
    (∀ xv yv, grid_get_or_none g x = some xv → grid_get_or_none g y = some yv →
      ∃ qx qy g2, pyResolve2 g x = some qx ∧ pyResolve2 g y = some qy ∧
        grid_swap g x y = Except.ok g2 ∧
        grid_get_or_none g2 x = some yv ∧
        grid_get_or_none g2 y = some xv ∧
        ∀ q, q ≠ qx → q ≠ qy → cellAt g2 q = cellAt g q) := by
  constructor
  · intro h
    rcases h with h | h
    · cases hy : grid_get_or_none g y with
      | none => simp [grid_swap, h, hy]
      | some yv => simp [grid_swap, h, hy]
    · cases hx : grid_get_or_none g x with
      | none => simp [grid_swap, hx, h]
      | some xv => simp [grid_swap, hx, h]
  · intro xv yv hx hy
    have hx2 := hx
    rw [grid_get_or_none_eq_resolve] at hx2
    rcases Option.map_eq_some'.mp hx2 with ⟨qx, hqx, hcx⟩
    have hy2 := hy
    rw [grid_get_or_none_eq_resolve] at hy2
    rcases Option.map_eq_some'.mp hy2 with ⟨qy, hqy, hcy⟩
    have hbx := resolve_bounds g x qx hqx
    have hset1 : grid_set_rc g x [yv] = Except.ok (gridWrite g qx yv) := by
      rw [grid_set_rc]
      exact grid_set_eq_write g x.1 x.2 yv qx hqx
    have hshape1 := sameShape_write g qx yv
    have hres1 : ∀ rc, pyResolve2 (gridWrite g qx yv) rc = pyResolve2 g rc :=
      fun rc => pyResolve2_shape_congr g _ hshape1.1 hshape1.2 rc
    have hqy1 : pyResolve2 (gridWrite g qx yv) y = some qy := by
      rw [hres1]
      exact hqy
    have hby1 := resolve_bounds (gridWrite g qx yv) y qy hqy1
    have hset2 : grid_set_rc (gridWrite g qx yv) y [xv] =
        Except.ok (gridWrite (gridWrite g qx yv) qy xv) := by
      rw [grid_set_rc]
      exact grid_set_eq_write _ y.1 y.2 xv qy hqy1
    have hshape2 := sameShape_write (gridWrite g qx yv) qy xv
    have hres2 : ∀ rc,
        pyResolve2 (gridWrite (gridWrite g qx yv) qy xv) rc = pyResolve2 g rc :=
      fun rc => by
        rw [pyResolve2_shape_congr _ _ hshape2.1 hshape2.2 rc, hres1]
    refine ⟨qx, qy, gridWrite (gridWrite g qx yv) qy xv, hqx, hqy, ?_, ?_, ?_, ?_⟩
    · simp only [grid_swap, hx, hy, hset1, hset2]
    · rw [grid_get_or_none_eq_resolve, hres2 x, hqx, Option.map_some']
      by_cases hqq : qx = qy
      · have hxy : xv = yv := by rw [← hcx, ← hcy, hqq]
        have hself := cellAt_write_self (gridWrite g qx yv) qy xv hby1.1 hby1.2
        have hcell : cellAt (gridWrite (gridWrite g qx yv) qy xv) qx = xv := by
          rw [show qx = qy from hqq] at hself ⊢
          exact hself
        rw [hcell, hxy]
      · have h1 := cellAt_write_ne (gridWrite g qx yv) qy qx xv hqq
        have h2 := cellAt_write_self g qx yv hbx.1 hbx.2
        rw [h1, h2]
    · rw [grid_get_or_none_eq_resolve, hres2 y, hqy, Option.map_some']
      have hself := cellAt_write_self (gridWrite g qx yv) qy xv hby1.1 hby1.2
      rw [hself]
    · intro q hqx2 hqy2
      have h1 := cellAt_write_ne (gridWrite g qx yv) qy q xv hqy2
      have h2 := cellAt_write_ne g qx q yv hqx2
      rw [h1, h2]

/-- C2 counterexample: the coordinate (-1, 0) is out of bounds by the
library's own bounds check, yet `grid_swap` mutates the grid, because the
negative index resolves to the last row under Python indexing. -/
theorem grid_swap_cex :
    grid_is_inbound demoGrid (-1, 0) = false ∧
    grid_swap demoGrid (-1, 0) (0, 0) = Except.ok [['c', 'b'], ['a', 'd']] :=
  ⟨by decide, by decide⟩

/-- Witness for C2 on the spec's example grid, swapping (0, 0) and (1, 1). -/
theorem grid_swap_spec_witness :
    ∃ qx qy g2, pyResolve2 demoGrid (0, 0) = some qx ∧
      pyResolve2 demoGrid (1, 1) = some qy ∧
      grid_swap demoGrid (0, 0) (1, 1) = Except.ok g2 ∧
      grid_get_or_none g2 (0, 0) = some 'd' ∧
      grid_get_or_none g2 (1, 1) = some 'a' ∧
      ∀ q, q ≠ qx → q ≠ qy → cellAt g2 q = cellAt demoGrid q :=
  (grid_swap_spec demoGrid (0, 0) (1, 1)).2 'a' 'd' (by decide) (by decide)

/-! Properties of the sequence enumeration and of `permute`. -/

lemma length_flatMap_const {α β : Type} (l : List α) (f : α → List β) (k : Nat)
    (h : ∀ a ∈ l, (f a).length = k) : (l.flatMap f).length = l.length * k := by
  induction l with
  | nil => simp
  | cons a t ih =>
    simp only [List.flatMap_cons, List.length_append, List.length_cons,
      h a (by simp)]
    rw [ih (fun b hb => h b (by simp [hb]))]
    ring

lemma seqs_length {T : Type} (n : Nat) (ops : List T) :
    (seqs n ops).length = ops.length ^ n := by
  induction n with
  | zero => simp [seqs]
  | succ n ih =>
    simp only [seqs]
    rw [length_flatMap_const ops _ (seqs n ops).length (fun a _ => by simp),
      ih, pow_succ]
    ring

lemma seqs_mem {T : Type} (n : Nat) (ops : List T) (s : List T) :
    s ∈ seqs n ops ↔ s.length = n ∧ ∀ x ∈ s, x ∈ ops := by
  induction n generalizing s with
  | zero =>
    simp only [seqs, List.mem_singleton]
    constructor
    · rintro rfl
      simp
    · rintro ⟨h1, _⟩
      exact List.length_eq_zero.mp h1
  | succ n ih =>
    simp only [seqs, List.mem_flatMap, List.mem_map]
    constructor
    · rintro ⟨op, hop, t, ht, rfl⟩
      have h2 := (ih t).mp ht
      refine ⟨by simp [h2.1], ?_⟩
      intro x hx
      rcases List.mem_cons.mp hx with rfl | hx2
      · exact hop
      · exact h2.2 x hx2
    · rintro ⟨hlen, hmem⟩
      cases s with
      | nil => simp at hlen
      | cons a t =>
        exact ⟨a, hmem a (by simp), t,
          (ih t).mpr ⟨by simpa using hlen, fun x hx => hmem x (by simp [hx])⟩,
          rfl⟩

lemma seqs_nodup {T : Type} (n : Nat) (ops : List T) (h : ops.Nodup) :
    (seqs n ops).Nodup := by
  induction n with
  | zero => simp [seqs]
  | succ n ih =>
    simp only [seqs]
    rw [List.nodup_flatMap]
    constructor
    · intro op _
      exact ih.map (fun a b hab => by simpa using hab)
    · refine h.imp ?_
      intro a b hab
      intro s hs1 hs2
      simp only [List.mem_map] at hs1 hs2
      rcases hs1 with ⟨t1, _, rfl⟩
      rcases hs2 with ⟨t2, _, heq⟩
      apply hab
      injection heq with h1 _
      exact h1.symm

lemma permuteAux_spec {T : Type} (ops : List T) (max_length : Nat) :
    ∀ fuel curr result, curr.length ≤ max_length →
      max_length - curr.length < fuel →
      permuteAux fuel curr max_length result ops =
        (curr, result ++ (seqs (max_length - curr.length) ops).map
          (fun s => curr ++ s)) := by
  intro fuel
  induction fuel with
  | zero =>
    intro curr result h1 h2
    omega
  | succ f ih =>
    intro curr result h1 h2
    by_cases heq : curr.length = max_length
    · simp only [permuteAux, if_pos heq]
      rw [show max_length - curr.length = 0 by omega]
      simp [seqs]
    · have hlt : curr.length < max_length := by omega
      simp only [permuteAux, if_neg heq]
      obtain ⟨k, hk⟩ : ∃ k, max_length - curr.length = k + 1 :=
        ⟨max_length - curr.length - 1, by omega⟩
      have loop : ∀ (l : List T) (res : List (List T)),
          l.foldl (fun st op =>
            let nx := permuteAux f (st.1 ++ [op]) max_length st.2 ops
            (nx.1.dropLast, nx.2)) (curr, res) =
          (curr, res ++ l.flatMap (fun op => (seqs k ops).map
            (fun s => curr ++ op :: s))) := by
        intro l
        induction l with
        | nil =>
          intro res
          simp
        | cons op t ihl =>
          intro res
          rw [List.foldl_cons]
          have hrec := ih (curr ++ [op]) res (by simp; omega) (by simp; omega)
          have hk2 : max_length - (curr ++ [op]).length = k := by
            simp
            omega
          rw [hk2] at hrec
          simp only [hrec, List.dropLast_concat]
          rw [ihl]
          simp [List.flatMap_cons, List.append_assoc]
      rw [loop ops result, hk]
      congr 1
      simp only [seqs, List.map_flatMap, List.map_map]
      rfl

/-- C6: called with an empty scratch list, `permute` produces exactly
`alphabet size ^ max_length` sequences, each of length `max_length`, with no
duplicates, covering every sequence over the alphabet with repetition, and
the scratch list is empty again when the call returns. -/
theorem permute_spec {T : Type} (ops : List T) (n : Nat) (hops : ops.Nodup) :
    (permute [] n [] ops).1 = [] ∧
    (permute [] n [] ops).2.length = ops.length ^ n ∧
    (∀ s ∈ (permute [] n [] ops).2, s.length = n) ∧
    (∀ s : List T, s.length = n → (∀ x ∈ s, x ∈ ops) →
      s ∈ (permute [] n [] ops).2) ∧
    (permute [] n [] ops).2.Nodup := by
  have hmain : permute ([] : List T) n [] ops = ([], seqs n ops) := by
    rw [permute,
      permuteAux_spec ops n (n + 1 - List.length ([] : List T)) [] []
        (by simp) (by simp)]
    simp
  rw [hmain]
  refine ⟨rfl, seqs_length n ops, ?_, ?_, seqs_nodup n ops hops⟩
  · intro s hs
    exact ((seqs_mem n ops s).mp hs).1
  · intro s h1 h2
    exact (seqs_mem n ops s).mpr ⟨h1, h2⟩

/-- Witness for C6: the spec's example, alphabet {0, 1} and length 3, giving
8 sequences. -/
theorem permute_spec_witness :
    (permute ([] : List Nat) 3 [] [0, 1]).1 = [] ∧
    (permute ([] : List Nat) 3 [] [0, 1]).2.length = 8 ∧
    (∀ s ∈ (permute ([] : List Nat) 3 [] [0, 1]).2, s.length = 3) ∧
    (∀ s : List Nat, s.length = 3 → (∀ x ∈ s, x ∈ ([0, 1] : List Nat)) →
      s ∈ (permute ([] : List Nat) 3 [] [0, 1]).2) ∧
    (permute ([] : List Nat) 3 [] [0, 1]).2.Nodup :=
  permute_spec [0, 1] 3 (by decide)

end AoC
